import Mathlib

set_option linter.unusedSectionVars false
set_option linter.unusedVariables false
set_option linter.unreachableTactic false
set_option linter.unusedTactic false

/-!
Verification of the `collections` Set container from the letsgo library
(src/operators.go).  The Go type is `type Set[T comparable] map[T]struct{}`:
a mutable hash map from elements to a unit marker, used through methods that
mutate the receiver in place (`Add`, `Remove`, `RemoveAll`, `Union`,
`Intersect`, `Diff`, ...) or allocate a fresh map (`Copy`, `NewUnion`,
`NewDiff`, `NewIntersect`).

Because half of the specified properties are about aliasing and frame
effects ("returns the same instance", "never mutates either operand",
"mutating the copy never affects the original"), the embedding makes the
heap explicit: a `Store α` is the list of backing maps currently allocated,
and a Go `Set[T]` value is a reference — an index into that list.  Each
backing map is modelled as a `Finset α` (a Go map to `struct{}` is exactly a
finite set of keys: unordered, duplicate-free).  An in-place method takes
the store and the receiver's reference and returns the updated store
together with the reference it returns in Go; a `New`-prefixed method
allocates a fresh cell.

A nil Go map reads as empty and is never written by this code (every
mutation guarded by `other == nil || other.Size() == 0` style checks, or
performed on a receiver the caller allocated), so a nil `Set[T]` argument is
modelled by a reference to an empty cell; the source's `x == nil ||
x.Size() == 0` tests collapse to `Size = 0` under this reading.

Go's `error` results from `Remove`/`RemoveAll` are built with `errors.New`
on fixed message strings; following the specification they are abstracted
to the three error kinds `NotFound`, `EmptyInput`, `NotAllPresent`.

The source contains two textually identical copies of the container
(exported `Set` and unexported `set`); the exported one (the lines cited by
the specification) is the one embedded here.
-/

namespace LetsGo

inductive SetError : Type where
  | NotFound : SetError
  | EmptyInput : SetError
  | NotAllPresent : SetError
  deriving DecidableEq, Repr

/-- The heap: cell `r` is the backing map of the set whose reference is `r`. -/
structure Store (α : Type) [DecidableEq α] where
  cells : List (Finset α)

variable {α : Type} [DecidableEq α]

/-- Read the backing map of reference `r`; an out-of-range reference reads
as the empty map (like a nil Go map). -/
def Store.get (st : Store α) (r : Nat) : Finset α :=
  st.cells.getD r ∅

/-- Overwrite the backing map of reference `r` (no-op when out of range). -/
def Store.set (st : Store α) (r : Nat) (v : Finset α) : Store α :=
  ⟨st.cells.set r v⟩

/-- Allocate a fresh backing map holding `v`; returns the new store and the
fresh reference. -/
def Store.alloc (st : Store α) (v : Finset α) : Store α × Nat :=
  (⟨st.cells ++ [v]⟩, st.cells.length)

/-- A reference is valid when it indexes an allocated cell. -/
def Store.Valid (st : Store α) (r : Nat) : Prop :=
  r < st.cells.length

instance (st : Store α) (r : Nat) : Decidable (st.Valid r) :=
  inferInstanceAs (Decidable (r < st.cells.length))

/-! ### The Set operations, translated from src/operators.go

Go slices passed as `elements []T` become `List α`; a nil slice and an
empty slice both have length 0, so the source's `elements == nil ||
len(elements) == 0` becomes `es.isEmpty`.  Methods that iterate the keys of
a map (`for key := range m`) iterate, in Go, over a snapshot-like view in
unspecified order; they are embedded as folds over an enumeration of the
map read at loop entry, with every per-iteration mutation performed on the
store step by step.  The embedding resolves the unspecified iteration order
by enumerating keys in ascending order (`Store.keys`, hence the
`[LinearOrder α]` requirement on iterating operations); the theorem about
`ToSlice` quantifies over every enumeration, and the other loop results are
proved equal to order-independent set expressions. -/

variable [LinearOrder α]

/-- One enumeration of the keys of a backing map (ascending); stands for
Go's unspecified `for key := range m` order. -/
def Store.keys (m : Finset α) : List α :=
  m.sort (fun a b => a ≤ b)

/-- `func NewSet[T comparable]() Set[T] { return Set[T]{} }` — allocates a
fresh empty map. -/
def NewSet (st : Store α) : Store α × Nat :=
  st.alloc ∅

/-- `func (s Set[T]) Add(element T) Set[T]`: `s[element] = struct{}{};
return s`. -/
def Add (st : Store α) (s : Nat) (element : α) : Store α × Nat :=
  (st.set s (insert element (st.get s)), s)

/-- `func (s Set[T]) AddAll(elements []T) Set[T]`: `for _, v := range
elements { s.Add(v) }; return s`. -/
def AddAll (st : Store α) (s : Nat) (elements : List α) : Store α × Nat :=
  (elements.foldl (fun st2 v => (Add st2 s v).1) st, s)

/-- `func (s Set[T]) Has(element T) bool`: key lookup. -/
def Has (st : Store α) (s : Nat) (element : α) : Bool :=
  element ∈ st.get s

/-- `func (s Set[T]) HasAllOf(elements []T) bool`: the loop returns false
at the first element not in the map, true after the full pass. -/
def HasAllOf (st : Store α) (s : Nat) (elements : List α) : Bool :=
  elements.all (fun v => v ∈ st.get s)

/-- `func (s Set[T]) Remove(element T) error`: returns the NotFound error
without touching the map when the element is absent, otherwise deletes the
key and returns nil.  The pair carries the store after the call and the
error result. -/
def Remove (st : Store α) (s : Nat) (element : α) :
    Store α × Option SetError :=
  if ¬ Has st s element then (st, some SetError.NotFound)
  else (st.set s ((st.get s).erase element), none)

/-- `func (s Set[T]) RemoveAll(elements []T) error`: EmptyInput on a
nil/empty slice, NotAllPresent when the `HasAllOf` pre-scan fails — in both
cases before any deletion; otherwise `for _, v := range elements {
delete(s, v) }`. -/
def RemoveAll (st : Store α) (s : Nat) (elements : List α) :
    Store α × Option SetError :=
  if elements.isEmpty then (st, some SetError.EmptyInput)
  else if ¬ HasAllOf st s elements then (st, some SetError.NotAllPresent)
  else (elements.foldl (fun st2 v => st2.set s ((st2.get s).erase v)) st,
    none)

/-- `func (s Set[T]) Copy() Set[T]`: allocates a fresh map and copies every
key into it. -/
def Copy (st : Store α) (s : Nat) : Store α × Nat :=
  st.alloc (st.get s)

/-- `func (s Set[T]) Size() int`: `len(s)`. -/
def Size (st : Store α) (s : Nat) : Nat :=
  (st.get s).card

/-- `func (s Set[T]) ToSlice() []T`: lists the keys in unspecified order;
the embedding fixes one enumeration, and the round-trip theorem quantifies
over every enumeration. -/
def ToSlice (st : Store α) (s : Nat) : List α :=
  Store.keys (st.get s)

/-- `func (s Set[T]) IsSuperSetOf(other Set[T]) bool`: true when `other` is
nil/empty, else a pass over the keys of `other` checking `s.Has`. -/
def IsSuperSetOf (st : Store α) (s other : Nat) : Bool :=
  if Size st other = 0 then true
  else (Store.keys (st.get other)).all (fun key => Has st s key)

/-- `func (s Set[T]) IsSubSetOf(other Set[T]) bool`: true when `s` is
nil/empty, else a pass over the keys of `s` checking `other.Has`. -/
def IsSubSetOf (st : Store α) (s other : Nat) : Bool :=
  if Size st s = 0 then true
  else (Store.keys (st.get s)).all (fun key => Has st other key)

/-- `func (s Set[T]) Diff(other Set[T]) Set[T]`: `for key := range other {
_ = s.Remove(key) }; return s`. -/
def Diff (st : Store α) (s other : Nat) : Store α × Nat :=
  ((Store.keys (st.get other)).foldl (fun st2 key => (Remove st2 s key).1) st, s)

/-- `func (s Set[T]) NewDiff(other Set[T]) Set[T]`: fresh set receiving
every key of `s` that `other` does not have. -/
def NewDiff (st : Store α) (s other : Nat) : Store α × Nat :=
  let a := NewSet st
  ((Store.keys (a.1.get s)).foldl
    (fun st2 key => if ¬ Has st2 other key then (Add st2 a.2 key).1 else st2)
    a.1, a.2)

/-- `func (s Set[T]) Union(other Set[T]) Set[T]`: returns `s` untouched
when `other` is nil/empty, else adds every key of `other` into `s`. -/
def Union (st : Store α) (s other : Nat) : Store α × Nat :=
  if Size st other = 0 then (st, s)
  else ((Store.keys (st.get other)).foldl (fun st2 key => (Add st2 s key).1) st, s)

/-- `func (s Set[T]) NewUnion(other Set[T]) Set[T]`: `newSet := s.Copy();
return newSet.Union(other)`. -/
def NewUnion (st : Store α) (s other : Nat) : Store α × Nat :=
  let c := Copy st s
  Union c.1 c.2 other

/-- `func (s Set[T]) Intersect(other Set[T]) Set[T]`: returns `s` untouched
when `other` is nil/empty, else `for key := range s { if !other.Has(key) {
_ = s.Remove(key) } }`. -/
def Intersect (st : Store α) (s other : Nat) : Store α × Nat :=
  if Size st other = 0 then (st, s)
  else ((Store.keys (st.get s)).foldl
    (fun st2 key => if ¬ Has st2 other key then (Remove st2 s key).1 else st2)
    st, s)

/-- `func (s Set[T]) NewIntersect(other Set[T]) Set[T]`: `newSet :=
s.Copy(); return newSet.Intersect(other)`. -/
def NewIntersect (st : Store α) (s other : Nat) : Store α × Nat :=
  let c := Copy st s
  Intersect c.1 c.2 other

/-- A single-element mutation of one set: the claims about copy
independence quantify over arbitrary sequences of `Add`/`Remove` calls. -/
inductive Mut (α : Type) where
  | add : α → Mut α
  | rem : α → Mut α

/-- Apply one `Add` or `Remove` call to the set referenced by `r`. -/
def applyMut (st : Store α) (r : Nat) : Mut α → Store α
  | Mut.add e => (Add st r e).1
  | Mut.rem e => (Remove st r e).1

/-- Apply a sequence of `Add`/`Remove` calls to the set referenced by `r`. -/
def applyMuts (st : Store α) (r : Nat) (ms : List (Mut α)) : Store α :=
  ms.foldl (fun st2 m => applyMut st2 r m) st

/-- Concrete store used by the witnesses: ref 0 holds {1,2,3}, ref 1 holds
{2,4}, ref 2 holds the empty set (a nil operand). -/
def stW : Store ℤ :=
  ⟨[{1, 2, 3}, {2, 4}, ∅]⟩

/-! ### Properties of the store -/

theorem Store.length_set (st : Store α) (r : Nat) (v : Finset α) :
    (st.set r v).cells.length = st.cells.length := by
  simp [Store.set]

theorem Store.get_set_self (st : Store α) (r : Nat) (v : Finset α)
    (h : st.Valid r) : (st.set r v).get r = v := by
  simp [Store.get, Store.set, List.getD, List.getElem?_set_self, Store.Valid] at *
  simp [List.getElem?_set_self h]

theorem Store.get_set_ne (st : Store α) (r r' : Nat) (v : Finset α)
    (h : r ≠ r') : (st.set r v).get r' = st.get r' := by
  simp [Store.get, Store.set, List.getD, List.getElem?_set_ne h]

theorem Store.set_set (st : Store α) (r : Nat) (v w : Finset α) :
    (st.set r v).set r w = st.set r w := by
  simp [Store.set, List.set_set]

theorem Store.set_get_self (st : Store α) (r : Nat) (h : st.Valid r) :
    st.set r (st.get r) = st := by
  unfold Store.set Store.get Store.Valid at *
  cases st with
  | mk cells =>
    simp only [Store.mk.injEq]
    apply List.ext_getElem
    · simp
    · intro i h1 h2
      by_cases hir : i = r
      · subst hir
        simp [List.getElem_set_self, List.getD, List.getElem?_eq_getElem, h2]
      · simp [List.getElem_set_ne (fun he => hir he.symm)]

theorem Store.get_alloc_new (st : Store α) (v : Finset α) :
    (st.alloc v).1.get st.cells.length = v := by
  simp [Store.alloc, Store.get, List.getD]

theorem Store.get_alloc_ne (st : Store α) (v : Finset α) (r : Nat)
    (h : r ≠ st.cells.length) : (st.alloc v).1.get r = st.get r := by
  unfold Store.alloc Store.get
  rcases Nat.lt_or_ge r st.cells.length with hr | hr
  · simp [List.getD, List.getElem?_append_left hr]
  · have hgt : st.cells.length < r := Nat.lt_of_le_of_ne hr (fun he => h he.symm)
    have h1 : (st.cells ++ [v]).length ≤ r := by simp; omega
    simp [List.getD, List.getElem?_eq_none h1,
      List.getElem?_eq_none (Nat.le_of_lt hgt)]

theorem Store.length_alloc (st : Store α) (v : Finset α) :
    (st.alloc v).1.cells.length = st.cells.length + 1 := by
  simp [Store.alloc]

theorem Store.valid_alloc_new (st : Store α) (v : Finset α) :
    (st.alloc v).1.Valid (st.alloc v).2 := by
  simp [Store.alloc, Store.Valid]

theorem Store.alloc_snd (st : Store α) (v : Finset α) :
    (st.alloc v).2 = st.cells.length := rfl

theorem Store.set_alloc_new (st : Store α) (v : Finset α) :
    (st.alloc v).1.set st.cells.length v = (st.alloc v).1 := by
  have h := Store.set_get_self (st.alloc v).1 st.cells.length
    (Store.valid_alloc_new st v)
  rw [Store.get_alloc_new st v] at h
  exact h

theorem Store.mem_keys (m : Finset α) (a : α) : a ∈ Store.keys m ↔ a ∈ m := by
  simp [Store.keys, Finset.mem_sort]

theorem Store.nodup_keys (m : Finset α) : (Store.keys m).Nodup := by
  simp [Store.keys, Finset.sort_nodup]

/-! ### Loop commutation

Every loop in the source mutates a single backing map per iteration.  The
following lemma turns such a step-by-step store fold into one store write
of a pure `Finset` fold: the step may read the written cell `s` and one
other cell `o ≠ s` (the `other` operand), both captured by `g`. -/

theorem foldl_steps (s o : Nat) (f : Store α → α → Store α)
    (g : Finset α → Finset α → α → Finset α)
    (hf : ∀ st2 k, st2.Valid s → f st2 k = st2.set s (g (st2.get s) (st2.get o) k))
    (hso : s ≠ o) (l : List α) (st : Store α) (hs : st.Valid s) :
    l.foldl f st = st.set s (l.foldl (fun A k => g A (st.get o) k) (st.get s)) := by
  induction l generalizing st with
  | nil => exact (Store.set_get_self st s hs).symm
  | cons a l ih =>
    have hv : (st.set s (g (st.get s) (st.get o) a)).Valid s := by
      simpa [Store.Valid, Store.length_set] using hs
    simp only [List.foldl_cons, hf st a hs]
    rw [ih _ hv, Store.set_set, Store.get_set_self _ _ _ hs,
      Store.get_set_ne _ _ _ _ hso]

/-- `Remove` ignored-error form: on a valid reference the store after
`Remove` is always the erase-write (erasing an absent key writes the map
back unchanged). -/
theorem Remove_fst (st : Store α) (s : Nat) (e : α) (hs : st.Valid s) :
    (Remove st s e).1 = st.set s ((st.get s).erase e) := by
  unfold Remove Has
  by_cases h : e ∈ st.get s
  · simp [h]
  · simp [h, Finset.erase_eq_of_not_mem h, Store.set_get_self st s hs]

/-! ### Pure fold characterizations -/

theorem foldl_insert (l : List α) (A : Finset α) :
    l.foldl (fun A2 k => insert k A2) A = A ∪ l.toFinset := by
  induction l generalizing A with
  | nil => simp
  | cons a l ih =>
    simp only [List.foldl_cons, ih, List.toFinset_cons]
    ext x
    simp

theorem foldl_erase (l : List α) (A : Finset α) :
    l.foldl Finset.erase A = A \ l.toFinset := by
  induction l generalizing A with
  | nil => simp
  | cons a l ih =>
    simp only [List.foldl_cons, ih, List.toFinset_cons]
    ext x
    simp [Finset.mem_erase, Finset.mem_sdiff]
    tauto

theorem foldl_guard_insert (l : List α) (O A : Finset α) :
    l.foldl (fun A2 k => if k ∈ O then A2 else insert k A2) A
      = A ∪ (l.toFinset \ O) := by
  induction l generalizing A with
  | nil => simp
  | cons a l ih =>
    simp only [List.foldl_cons]
    by_cases h : a ∈ O
    · simp only [if_pos h, ih, List.toFinset_cons]
      ext x
      simp
      by_cases hx : x = a <;> simp [hx, h] <;> tauto
    · simp only [if_neg h, ih, List.toFinset_cons]
      ext x
      simp
      by_cases hx : x = a <;> simp [hx, h] <;> tauto

theorem foldl_guard_erase (l : List α) (O A : Finset α) :
    l.foldl (fun A2 k => if k ∈ O then A2 else A2.erase k) A
      = A \ (l.toFinset \ O) := by
  induction l generalizing A with
  | nil => simp
  | cons a l ih =>
    simp only [List.foldl_cons]
    by_cases h : a ∈ O
    · simp only [if_pos h, ih, List.toFinset_cons]
      ext x
      simp [Finset.mem_erase]
      by_cases hx : x = a <;> simp [hx, h] <;> tauto
    · simp only [if_neg h, ih, List.toFinset_cons]
      ext x
      simp [Finset.mem_erase]
      by_cases hx : x = a <;> simp [hx, h] <;> tauto

theorem keys_toFinset (m : Finset α) : (Store.keys m).toFinset = m := by
  ext x
  simp [List.mem_toFinset, Store.mem_keys]

/-! ### Characterizations of the operations -/

theorem Has_iff (st : Store α) (s : Nat) (e : α) :
    Has st s e = true ↔ e ∈ st.get s := by
  simp [Has]

theorem HasAllOf_iff (st : Store α) (s : Nat) (es : List α) :
    HasAllOf st s es = true ↔ ∀ e ∈ es, e ∈ st.get s := by
  simp [HasAllOf, List.all_eq_true]

theorem AddAll_fst (st : Store α) (s : Nat) (es : List α) (hs : st.Valid s) :
    (AddAll st s es).1 = st.set s (st.get s ∪ es.toFinset) := by
  have h := foldl_steps s (s + 1) (fun st2 v => (Add st2 s v).1)
    (fun A _ k => insert k A) (fun st2 k _ => rfl) (by omega) es st hs
  unfold AddAll
  simp only at h ⊢
  rw [h, foldl_insert]

theorem RemoveAll_success (st : Store α) (s : Nat) (es : List α)
    (hs : st.Valid s) (hne : es ≠ []) (hall : ∀ e ∈ es, e ∈ st.get s) :
    RemoveAll st s es = (st.set s (st.get s \ es.toFinset), none) := by
  unfold RemoveAll
  rw [if_neg (by simp [hne]), if_neg (by simp [HasAllOf_iff]; exact hall)]
  have h := foldl_steps s (s + 1) (fun st2 v => st2.set s ((st2.get s).erase v))
    (fun A _ k => A.erase k) (fun st2 k _ => rfl) (by omega) es st hs
  simp only at h ⊢
  rw [h, foldl_erase]

theorem Union_char (st : Store α) (s other : Nat) (hs : st.Valid s) :
    Union st s other = if (st.get other).card = 0 then (st, s)
      else (st.set s (st.get s ∪ st.get other), s) := by
  unfold Union Size
  by_cases h : (st.get other).card = 0
  · simp [h]
  · rw [if_neg h, if_neg h]
    have hfold := foldl_steps s (s + 1) (fun st2 key => (Add st2 s key).1)
      (fun A _ k => insert k A) (fun st2 k _ => rfl) (by omega)
      (Store.keys (st.get other)) st hs
    simp only at hfold ⊢
    rw [hfold, foldl_insert, keys_toFinset]

theorem Intersect_char (st : Store α) (s other : Nat) (hs : st.Valid s)
    (hso : s ≠ other) :
    Intersect st s other = if (st.get other).card = 0 then (st, s)
      else (st.set s (st.get s ∩ st.get other), s) := by
  unfold Intersect Size
  by_cases h : (st.get other).card = 0
  · simp [h]
  · rw [if_neg h, if_neg h]
    have hstep : ∀ (st2 : Store α) (k : α), st2.Valid s →
        (if ¬ Has st2 other k then (Remove st2 s k).1 else st2)
          = st2.set s
              (if k ∈ st2.get other then st2.get s else (st2.get s).erase k) := by
      intro st2 k hv
      by_cases hk : k ∈ st2.get other
      · simp [Has, hk, Store.set_get_self st2 s hv]
      · simp [Has, hk, Remove_fst st2 s k hv]
    have hfold := foldl_steps s other
      (fun st2 key => if ¬ Has st2 other key then (Remove st2 s key).1 else st2)
      (fun A O k => if k ∈ O then A else A.erase k) hstep hso
      (Store.keys (st.get s)) st hs
    simp only at hfold ⊢
    rw [hfold, foldl_guard_erase, keys_toFinset, Finset.sdiff_sdiff_self_left]

theorem NewDiff_char (st : Store α) (s other : Nat) (hs : st.Valid s)
    (ho : st.Valid other) :
    NewDiff st s other
      = ((st.alloc ∅).1.set st.cells.length (st.get s \ st.get other),
         st.cells.length) := by
  unfold NewDiff NewSet
  have hns : s ≠ st.cells.length := Nat.ne_of_lt hs
  have hno : st.cells.length ≠ other := (Nat.ne_of_lt ho).symm
  have hvn : (st.alloc ∅).1.Valid st.cells.length := Store.valid_alloc_new st ∅
  have hstep : ∀ (st2 : Store α) (k : α), st2.Valid st.cells.length →
      (if ¬ Has st2 other k then (Add st2 st.cells.length k).1 else st2)
        = st2.set st.cells.length
            (if k ∈ st2.get other then st2.get st.cells.length
             else insert k (st2.get st.cells.length)) := by
    intro st2 k hv
    by_cases hk : k ∈ st2.get other
    · simp [Has, hk, Store.set_get_self st2 _ hv]
    · simp [Has, hk, Add]
  have hfold := foldl_steps st.cells.length other
    (fun st2 key =>
      if ¬ Has st2 other key then (Add st2 st.cells.length key).1 else st2)
    (fun A O k => if k ∈ O then A else insert k A) hstep hno
    (Store.keys ((st.alloc ∅).1.get s)) (st.alloc ∅).1 hvn
  simp only [Store.alloc_snd] at hfold ⊢
  rw [hfold, foldl_guard_insert, keys_toFinset, Store.get_alloc_new,
    Store.get_alloc_ne st ∅ s hns, Store.get_alloc_ne st ∅ other hno.symm,
    Finset.empty_union]

theorem NewUnion_char (st : Store α) (s other : Nat) (hs : st.Valid s)
    (ho : st.Valid other) :
    NewUnion st s other
      = ((st.alloc (st.get s)).1.set st.cells.length
           (st.get s ∪ st.get other),
         st.cells.length) := by
  unfold NewUnion Copy
  have hvn : (st.alloc (st.get s)).1.Valid st.cells.length :=
    Store.valid_alloc_new st (st.get s)
  have hgo : (st.alloc (st.get s)).1.get other = st.get other :=
    Store.get_alloc_ne st (st.get s) other (Nat.ne_of_lt ho)
  have hgn : (st.alloc (st.get s)).1.get st.cells.length = st.get s :=
    Store.get_alloc_new st (st.get s)
  simp only [Store.alloc_snd]
  rw [Union_char (st.alloc (st.get s)).1 st.cells.length other hvn, hgo]
  by_cases h : (st.get other).card = 0
  · have hempty : st.get other = ∅ := Finset.card_eq_zero.mp h
    rw [if_pos h, hempty, Finset.union_empty, Store.set_alloc_new]
  · rw [if_neg h, hgn]

theorem NewIntersect_char (st : Store α) (s other : Nat) (hs : st.Valid s)
    (ho : st.Valid other) :
    NewIntersect st s other
      = ((st.alloc (st.get s)).1.set st.cells.length
           (if (st.get other).card = 0 then st.get s
            else st.get s ∩ st.get other),
         st.cells.length) := by
  unfold NewIntersect Copy
  have hvn : (st.alloc (st.get s)).1.Valid st.cells.length :=
    Store.valid_alloc_new st (st.get s)
  have hno : st.cells.length ≠ other := (Nat.ne_of_lt ho).symm
  have hgo : (st.alloc (st.get s)).1.get other = st.get other :=
    Store.get_alloc_ne st (st.get s) other (Nat.ne_of_lt ho)
  have hgn : (st.alloc (st.get s)).1.get st.cells.length = st.get s :=
    Store.get_alloc_new st (st.get s)
  simp only [Store.alloc_snd]
  rw [Intersect_char (st.alloc (st.get s)).1 st.cells.length other hvn hno,
    hgo]
  by_cases h : (st.get other).card = 0
  · rw [if_pos h, if_pos h, Store.set_alloc_new]
  · rw [if_neg h, if_neg h, hgn]

theorem set_alloc_get_old (st : Store α) (v w : Finset α) (r : Nat)
    (hr : st.Valid r) :
    ((st.alloc v).1.set st.cells.length w).get r = st.get r := by
  rw [Store.get_set_ne _ _ _ _ (Ne.symm (Nat.ne_of_lt hr)),
    Store.get_alloc_ne st v r (Nat.ne_of_lt hr)]

theorem set_alloc_get_new (st : Store α) (v w : Finset α) :
    ((st.alloc v).1.set st.cells.length w).get st.cells.length = w := by
  apply Store.get_set_self
  simpa [Store.alloc_snd] using Store.valid_alloc_new st v

theorem applyMut_get_ne (st : Store α) (r r2 : Nat) (m : Mut α)
    (h : r ≠ r2) : (applyMut st r m).get r2 = st.get r2 := by
  cases m with
  | add e => exact Store.get_set_ne _ _ _ _ h
  | rem e =>
    unfold applyMut Remove
    by_cases hm : Has st r e
    · simp only [hm, not_true_eq_false, if_false]
      exact Store.get_set_ne _ _ _ _ h
    · simp [hm]

theorem applyMuts_get_ne (st : Store α) (r r2 : Nat) (h : r ≠ r2)
    (ms : List (Mut α)) : (applyMuts st r ms).get r2 = st.get r2 := by
  induction ms generalizing st with
  | nil => rfl
  | cons m ms ih =>
    unfold applyMuts at *
    simp only [List.foldl_cons]
    rw [ih (applyMut st r m), applyMut_get_ne st r r2 m h]

/-! ### The claims -/

/-- Claim C1: `RemoveAll` is atomic.  On a nil/empty input it fails with
EmptyInput and the whole store (hence the receiver) is unchanged; if any
listed element is absent it fails with NotAllPresent and the store is
unchanged, so no element was removed; otherwise it succeeds (nil error)
and afterwards no listed element is a member of the receiver. -/
theorem removeAll_atomic (st : Store α) (s : Nat) (es : List α)
    (hs : st.Valid s) :
    (es = [] → RemoveAll st s es = (st, some SetError.EmptyInput)) ∧
    ((∃ e ∈ es, e ∉ st.get s) →
      RemoveAll st s es = (st, some SetError.NotAllPresent)) ∧
    ((es ≠ [] ∧ ∀ e ∈ es, e ∈ st.get s) →
      (RemoveAll st s es).2 = none ∧
      ∀ e ∈ es, Has (RemoveAll st s es).1 s e = false) := by
  refine ⟨?_, ?_, ?_⟩
  · intro h
    subst h
    rfl
  · rintro ⟨e, he, hmem⟩
    have hne : es ≠ [] := by
      rintro rfl
      cases he
    have hnall : ¬ (HasAllOf st s es = true) := by
      rw [HasAllOf_iff]
      intro hforall
      exact hmem (hforall e he)
    unfold RemoveAll
    rw [if_neg (by simp [hne]), if_pos hnall]
  · rintro ⟨hne, hall⟩
    rw [RemoveAll_success st s es hs hne hall]
    refine ⟨rfl, ?_⟩
    intro e he
    simp [Has, Store.get_set_self _ _ _ hs, Finset.mem_sdiff, he]

/-- Claim C1 witness: with S = {1,2,3} and input [2,4] (4 absent),
`RemoveAll` fails with NotAllPresent and the store is unchanged. -/
theorem removeAll_atomic_witness :
    RemoveAll stW 0 ([2, 4] : List ℤ) = (stW, some SetError.NotAllPresent) :=
  (removeAll_atomic stW 0 [2, 4] (by decide)).2.1 (by decide)

/-- Claim C2: in-place `Intersect`.  With a nil/empty `other` the store and
the receiver reference come back unchanged (no element removed, same
instance); with a non-empty `other` the receiver reference is returned and
its map afterwards holds exactly the elements that were in it and are in
`other`.  The receiver and the argument are distinct references. -/
theorem intersect_spec (st : Store α) (s other : Nat) (hs : st.Valid s)
    (hso : s ≠ other) :
    (Size st other = 0 → Intersect st s other = (st, s)) ∧
    (Size st other ≠ 0 →
      (Intersect st s other).2 = s ∧
      ∀ x, Has (Intersect st s other).1 s x = true ↔
        (x ∈ st.get s ∧ x ∈ st.get other)) := by
  rw [Intersect_char st s other hs hso]
  unfold Size
  constructor
  · intro h
    rw [if_pos h]
  · intro h
    rw [if_neg h]
    refine ⟨rfl, ?_⟩
    intro x
    simp [Has, Store.get_set_self _ _ _ hs, Finset.mem_inter]

/-- Claim C2 witness: S = {1,2,3} intersected in place with a nil/empty
other is a no-op returning the same reference; and the nonempty case at
{2,4} keeps exactly the common element 2. -/
theorem intersect_spec_witness :
    Intersect stW 0 2 = (stW, 0) ∧
    (Has (Intersect stW 0 1).1 0 (2 : ℤ) = true ↔
      ((2 : ℤ) ∈ stW.get 0 ∧ (2 : ℤ) ∈ stW.get 1)) := by
  have ha := intersect_spec stW 0 2 (by decide) (by decide)
  have hb := intersect_spec stW 0 1 (by decide) (by decide)
  exact ⟨ha.1 (by decide), (hb.2 (by decide)).2 2⟩

/-- Claim C5: `Add` makes the element a member, reports the same reference
for chaining, grows the size by one exactly when the element was absent and
by zero when present, and is idempotent: adding twice gives the same store
and reference as adding once. -/
theorem add_spec (st : Store α) (s : Nat) (e : α) (hs : st.Valid s) :
    Has (Add st s e).1 s e = true ∧
    (Add st s e).2 = s ∧
    (Has st s e = false → Size (Add st s e).1 s = Size st s + 1) ∧
    (Has st s e = true → Size (Add st s e).1 s = Size st s) ∧
    Add (Add st s e).1 s e = Add st s e := by
  have hget : (Add st s e).1.get s = insert e (st.get s) :=
    Store.get_set_self _ _ _ hs
  refine ⟨?_, rfl, ?_, ?_, ?_⟩
  · simp [Has, hget]
  · intro h
    simp only [Has, decide_eq_false_iff_not] at h
    simp [Size, hget, Finset.card_insert_of_not_mem h]
  · intro h
    simp only [Has, decide_eq_true_eq] at h
    simp [Size, hget, Finset.insert_eq_self.mpr h]
  · unfold Add
    simp only
    rw [Store.get_set_self st s _ hs, Store.set_set, Finset.insert_idem]

/-- Claim C5 witness: adding the absent element 5 to {1,2,3} makes it a
member and grows the size by exactly one. -/
theorem add_spec_witness :
    Has (Add stW 0 (5 : ℤ)).1 0 5 = true ∧
    Size (Add stW 0 (5 : ℤ)).1 0 = Size stW 0 + 1 := by
  have h := add_spec stW 0 (5 : ℤ) (by decide)
  exact ⟨h.1, h.2.2.1 (by decide)⟩

/-- Claim C6: `Remove` fails with NotFound exactly when the element is not
a member, and then the store is unchanged; on success the element is gone,
the size has dropped by exactly one, and every other element's membership
is untouched. -/
theorem remove_spec (st : Store α) (s : Nat) (e : α) (hs : st.Valid s) :
    ((Remove st s e).2 = some SetError.NotFound ↔ e ∉ st.get s) ∧
    (e ∉ st.get s → (Remove st s e).1 = st) ∧
    (e ∈ st.get s →
      (Remove st s e).2 = none ∧
      Has (Remove st s e).1 s e = false ∧
      Size (Remove st s e).1 s + 1 = Size st s ∧
      ∀ x, x ≠ e → Has (Remove st s e).1 s x = Has st s x) := by
  unfold Remove
  by_cases h : e ∈ st.get s
  · rw [if_neg (by simp [Has, h])]
    have hget : (st.set s ((st.get s).erase e)).get s = (st.get s).erase e :=
      Store.get_set_self _ _ _ hs
    refine ⟨by simp [h], fun hc => absurd h hc, fun _ => ⟨rfl, ?_, ?_, ?_⟩⟩
    · simp [Has, hget]
    · have hcard := Finset.card_erase_of_mem h
      have hpos : 0 < (st.get s).card := Finset.card_pos.mpr ⟨e, h⟩
      simp only [Size, hget, hcard]
      omega
    · intro x hx
      simp [Has, hget, Finset.mem_erase, hx]
  · rw [if_pos (by simp [Has, h])]
    exact ⟨by simp [h], fun _ => rfl, fun hc => absurd hc h⟩

/-- Claim C6 witness: removing absent 5 from {1,2,3} fails and leaves the
store unchanged; removing present 2 succeeds, drops the size by one, and
keeps 1's membership. -/
theorem remove_spec_witness :
    (Remove stW 0 (5 : ℤ)).1 = stW ∧
    (Remove stW 0 (5 : ℤ)).2 = some SetError.NotFound ∧
    (Remove stW 0 (2 : ℤ)).2 = none ∧
    Size (Remove stW 0 (2 : ℤ)).1 0 + 1 = Size stW 0 ∧
    Has (Remove stW 0 (2 : ℤ)).1 0 (1 : ℤ) = Has stW 0 (1 : ℤ) := by
  have h5 := remove_spec stW 0 (5 : ℤ) (by decide)
  have h2 := remove_spec stW 0 (2 : ℤ) (by decide)
  have hok := h2.2.2 (by decide)
  exact ⟨h5.2.1 (by decide), h5.1.mpr (by decide), hok.1, hok.2.2.1,
    hok.2.2.2 1 (by decide)⟩

/-- Claim C9: `IsSuperSetOf` is true on a nil/empty argument, and otherwise
true exactly when every element of the argument is a member of the
receiver; symmetrically `IsSubSetOf` is true on a nil/empty receiver, and
otherwise true exactly when every element of the receiver is a member of
the argument. -/
theorem superset_subset_spec (st : Store α) (s other : Nat) :
    (Size st other = 0 → IsSuperSetOf st s other = true) ∧
    (Size st other ≠ 0 →
      (IsSuperSetOf st s other = true ↔ ∀ x ∈ st.get other, x ∈ st.get s)) ∧
    (Size st s = 0 → IsSubSetOf st s other = true) ∧
    (Size st s ≠ 0 →
      (IsSubSetOf st s other = true ↔ ∀ x ∈ st.get s, x ∈ st.get other)) := by
  refine ⟨?_, ?_, ?_, ?_⟩
  · intro h
    simp [IsSuperSetOf, h]
  · intro h
    simp [IsSuperSetOf, h, List.all_eq_true, Store.mem_keys, Has]
  · intro h
    simp [IsSubSetOf, h]
  · intro h
    simp [IsSubSetOf, h, List.all_eq_true, Store.mem_keys, Has]

/-- Claim C9 witness: {1,2,3} is a superset of the empty set, the empty set
is a subset of {1,2,3}, and {1,2,3} is not a superset of {2,4}. -/
theorem superset_subset_witness :
    IsSuperSetOf stW 0 2 = true ∧
    IsSubSetOf stW 2 0 = true ∧
    IsSuperSetOf stW 0 1 = false := by
  have ha := superset_subset_spec stW 0 2
  have hb := superset_subset_spec stW 2 0
  have hc := superset_subset_spec stW 0 1
  refine ⟨ha.1 (by decide), hb.2.2.1 (by decide), ?_⟩
  by_cases hss : IsSuperSetOf stW 0 1 = true
  · exfalso
    have h4 := ((hc.2.1 (by decide)).mp hss) 4 (by decide)
    exact absurd h4 (by decide)
  · simpa using hss

/-- Claim C10: `RemoveAll` tolerates duplicate entries: on a non-empty
input every entry of which is a member (repeats included), it succeeds, and
the size drops by exactly the number of distinct input elements — the
pre-scan only checks membership and a repeated deletion is a silent
no-op. -/
theorem removeAll_duplicates (st : Store α) (s : Nat) (es : List α)
    (hs : st.Valid s) (hne : es ≠ []) (hall : ∀ e ∈ es, e ∈ st.get s) :
    (RemoveAll st s es).2 = none ∧
    Size (RemoveAll st s es).1 s + es.toFinset.card = Size st s := by
  rw [RemoveAll_success st s es hs hne hall]
  refine ⟨rfl, ?_⟩
  have hsub : es.toFinset ⊆ st.get s := by
    intro x hx
    exact hall x (List.mem_toFinset.mp hx)
  have hcard := Finset.card_sdiff hsub
  have hle := Finset.card_le_card hsub
  simp only [Size, Store.get_set_self _ _ _ hs, hcard]
  omega

/-- Claim C10 witness: removing [1,2,1] (1 listed twice) from {1,2,3}
succeeds and the size drops by 2, the number of distinct entries. -/
theorem removeAll_duplicates_witness :
    (RemoveAll stW 0 ([1, 2, 1] : List ℤ)).2 = none ∧
    Size (RemoveAll stW 0 ([1, 2, 1] : List ℤ)).1 0
      + ([1, 2, 1] : List ℤ).toFinset.card = Size stW 0 :=
  removeAll_duplicates stW 0 [1, 2, 1] (by decide) (by decide) (by decide)

/-- Claim C3: `NewIntersect` returns a fresh reference distinct from both
operands and leaves both operands' maps untouched; with a nil/empty
`other` the fresh set is a full copy of the receiver (same membership and
size — not an empty set); with a non-empty `other` it holds exactly the
elements present in both operands. -/
theorem newIntersect_spec (st : Store α) (s other : Nat) (hs : st.Valid s)
    (ho : st.Valid other) :
    (NewIntersect st s other).2 ≠ s ∧
    (NewIntersect st s other).2 ≠ other ∧
    (NewIntersect st s other).1.get s = st.get s ∧
    (NewIntersect st s other).1.get other = st.get other ∧
    (Size st other = 0 →
      (NewIntersect st s other).1.get (NewIntersect st s other).2
        = st.get s ∧
      Size (NewIntersect st s other).1 (NewIntersect st s other).2
        = Size st s) ∧
    (Size st other ≠ 0 →
      ∀ x, x ∈ (NewIntersect st s other).1.get (NewIntersect st s other).2 ↔
        (x ∈ st.get s ∧ x ∈ st.get other)) := by
  rw [NewIntersect_char st s other hs ho]
  refine ⟨Ne.symm (Nat.ne_of_lt hs), Ne.symm (Nat.ne_of_lt ho),
    set_alloc_get_old st _ _ s hs, set_alloc_get_old st _ _ other ho,
    ?_, ?_⟩
  · intro h
    have h0 : (st.get other).card = 0 := h
    rw [set_alloc_get_new, if_pos h0]
    exact ⟨rfl, by simp [Size, set_alloc_get_new, if_pos h0]⟩
  · intro h
    have h0 : ¬ (st.get other).card = 0 := h
    intro x
    rw [set_alloc_get_new, if_neg h0, Finset.mem_inter]

/-- Claim C3 witness: with the nil/empty other at ref 2, `NewIntersect` of
S = {1,2,3} yields a fresh set with S's membership and size (the full-copy
quirk), and S itself is untouched. -/
theorem newIntersect_spec_witness :
    (NewIntersect stW 0 2).1.get (NewIntersect stW 0 2).2 = stW.get 0 ∧
    Size (NewIntersect stW 0 2).1 (NewIntersect stW 0 2).2 = Size stW 0 ∧
    (NewIntersect stW 0 2).1.get 0 = stW.get 0 := by
  have h := newIntersect_spec stW 0 2 (by decide) (by decide)
  have hq := h.2.2.2.2.1 (by decide)
  exact ⟨hq.1, hq.2, h.2.2.1⟩

/-- Claim C4: the copy-producing operations never mutate either operand:
after `NewUnion`, `NewDiff` or `NewIntersect` both operands' maps are
exactly as before, the result is a third reference distinct from both, the
`NewUnion` result holds exactly the elements in either operand, and the
`NewDiff` result holds exactly the elements of the receiver not in the
argument. -/
theorem new_ops_no_mutation (st : Store α) (s o : Nat) (hs : st.Valid s)
    (ho : st.Valid o) :
    ((NewUnion st s o).1.get s = st.get s ∧
     (NewUnion st s o).1.get o = st.get o ∧
     (NewUnion st s o).2 ≠ s ∧ (NewUnion st s o).2 ≠ o ∧
     ∀ x, x ∈ (NewUnion st s o).1.get (NewUnion st s o).2 ↔
        (x ∈ st.get s ∨ x ∈ st.get o)) ∧
    ((NewDiff st s o).1.get s = st.get s ∧
     (NewDiff st s o).1.get o = st.get o ∧
     (NewDiff st s o).2 ≠ s ∧ (NewDiff st s o).2 ≠ o ∧
     ∀ x, x ∈ (NewDiff st s o).1.get (NewDiff st s o).2 ↔
        (x ∈ st.get s ∧ x ∉ st.get o)) ∧
    ((NewIntersect st s o).1.get s = st.get s ∧
     (NewIntersect st s o).1.get o = st.get o ∧
     (NewIntersect st s o).2 ≠ s ∧ (NewIntersect st s o).2 ≠ o) := by
  rw [NewUnion_char st s o hs ho, NewDiff_char st s o hs ho,
    NewIntersect_char st s o hs ho]
  refine ⟨⟨set_alloc_get_old st _ _ s hs, set_alloc_get_old st _ _ o ho,
      Ne.symm (Nat.ne_of_lt hs), Ne.symm (Nat.ne_of_lt ho), ?_⟩,
    ⟨set_alloc_get_old st _ _ s hs, set_alloc_get_old st _ _ o ho,
      Ne.symm (Nat.ne_of_lt hs), Ne.symm (Nat.ne_of_lt ho), ?_⟩,
    set_alloc_get_old st _ _ s hs, set_alloc_get_old st _ _ o ho,
    Ne.symm (Nat.ne_of_lt hs), Ne.symm (Nat.ne_of_lt ho)⟩
  · intro x
    rw [set_alloc_get_new, Finset.mem_union]
  · intro x
    rw [set_alloc_get_new, Finset.mem_sdiff]

/-- Claim C4 witness: for S = {1,2,3} and O = {2,4}, `NewUnion` leaves
both operands unchanged, returns a reference distinct from both, and its
result contains 3 exactly because an operand does. -/
theorem new_ops_no_mutation_witness :
    (NewUnion stW 0 1).1.get 0 = stW.get 0 ∧
    (NewUnion stW 0 1).1.get 1 = stW.get 1 ∧
    (NewUnion stW 0 1).2 ≠ 0 ∧ (NewUnion stW 0 1).2 ≠ 1 ∧
    ((3 : ℤ) ∈ (NewUnion stW 0 1).1.get (NewUnion stW 0 1).2 ↔
      ((3 : ℤ) ∈ stW.get 0 ∨ (3 : ℤ) ∈ stW.get 1)) := by
  have h := new_ops_no_mutation stW 0 1 (by decide) (by decide)
  exact ⟨h.1.1, h.1.2.1, h.1.2.2.1, h.1.2.2.2.1, h.1.2.2.2.2 3⟩

/-- Claim C7: `Copy` returns a new reference with identical membership and
size, and the copy is independent: any sequence of `Add`/`Remove` calls on
the copy leaves the original's map exactly as it was, and any sequence of
`Add`/`Remove` calls on the original leaves the copy's map (equal to the
original's old map) unchanged. -/
theorem copy_independent (st : Store α) (s : Nat) (hs : st.Valid s) :
    (Copy st s).2 ≠ s ∧
    (Copy st s).1.get (Copy st s).2 = st.get s ∧
    Size (Copy st s).1 (Copy st s).2 = Size st s ∧
    (∀ ms : List (Mut α),
      (applyMuts (Copy st s).1 (Copy st s).2 ms).get s = st.get s) ∧
    (∀ ms : List (Mut α),
      (applyMuts (Copy st s).1 s ms).get (Copy st s).2 = st.get s) := by
  have hns : (Copy st s).2 ≠ s := by
    simp only [Copy, Store.alloc_snd]
    exact Ne.symm (Nat.ne_of_lt hs)
  have hget : (Copy st s).1.get (Copy st s).2 = st.get s := by
    simp only [Copy, Store.alloc_snd]
    exact Store.get_alloc_new st (st.get s)
  refine ⟨hns, hget, by simp [Size, hget], ?_, ?_⟩
  · intro ms
    rw [applyMuts_get_ne _ _ _ hns ms]
    simp only [Copy, Store.alloc_snd]
    exact Store.get_alloc_ne st (st.get s) s (Nat.ne_of_lt hs)
  · intro ms
    rw [applyMuts_get_ne _ _ _ (fun he => hns he.symm) ms]
    exact hget

/-- Claim C7 witness: after copying {1,2,3} and then adding 9 to and
removing 2 from the copy, the original still reads {1,2,3}; mutating the
original likewise leaves the copy reading {1,2,3}. -/
theorem copy_independent_witness :
    (applyMuts (Copy stW 0).1 (Copy stW 0).2
      [Mut.add (9 : ℤ), Mut.rem 2]).get 0 = stW.get 0 ∧
    (applyMuts (Copy stW 0).1 0
      [Mut.add (9 : ℤ), Mut.rem 2]).get (Copy stW 0).2 = stW.get 0 := by
  have h := copy_independent stW 0 (by decide)
  exact ⟨h.2.2.2.1 [Mut.add 9, Mut.rem 2], h.2.2.2.2 [Mut.add 9, Mut.rem 2]⟩

/-- Claim C8: `ToSlice` round-trip.  `ToSlice` enumerates exactly the
members (without duplicates), and for every enumeration `l` with the same
membership as the set — whatever its order — `AddAll l` on a newly created
empty set rebuilds a set with the same size and the same membership. -/
theorem toSlice_roundtrip (st : Store α) (s : Nat) (hs : st.Valid s) :
    ((ToSlice st s).Nodup ∧
     ∀ x, x ∈ ToSlice st s ↔ Has st s x = true) ∧
    (∀ l : List α, (∀ x, x ∈ l ↔ Has st s x = true) →
      Size (AddAll (NewSet st).1 (NewSet st).2 l).1 (NewSet st).2
        = Size st s ∧
      ∀ x, Has (AddAll (NewSet st).1 (NewSet st).2 l).1 (NewSet st).2 x
        = Has st s x) := by
  constructor
  · exact ⟨Store.nodup_keys _,
      fun x => by simp [ToSlice, Store.mem_keys, Has]⟩
  · intro l hl
    have hvn : (NewSet st).1.Valid (NewSet st).2 := Store.valid_alloc_new st ∅
    have hfst := AddAll_fst (NewSet st).1 (NewSet st).2 l hvn
    have hn0 : (NewSet st).1.get (NewSet st).2 = ∅ := by
      simp only [NewSet, Store.alloc_snd]
      exact Store.get_alloc_new st ∅
    have htos : l.toFinset = st.get s := by
      ext x
      rw [List.mem_toFinset, hl x]
      simp [Has]
    have hget : (AddAll (NewSet st).1 (NewSet st).2 l).1.get (NewSet st).2
        = st.get s := by
      rw [hfst, Store.get_set_self _ _ _ hvn, hn0, htos, Finset.empty_union]
    exact ⟨by simp [Size, hget], fun x => by simp [Has, hget]⟩

/-- Claim C8 witness: rebuilding from the enumeration [3,1,2] of {1,2,3}
— an order different from the ascending one `ToSlice` uses — gives a set
of the same size that again contains 3. -/
theorem toSlice_roundtrip_witness :
    Size (AddAll (NewSet stW).1 (NewSet stW).2 ([3, 1, 2] : List ℤ)).1
      (NewSet stW).2 = Size stW 0 ∧
    Has (AddAll (NewSet stW).1 (NewSet stW).2 ([3, 1, 2] : List ℤ)).1
      (NewSet stW).2 (3 : ℤ) = Has stW 0 (3 : ℤ) := by
  have h := toSlice_roundtrip stW 0 (by decide)
  have hl : ∀ x : ℤ, x ∈ ([3, 1, 2] : List ℤ) ↔ Has stW 0 x = true := by
    intro x
    simp [Has, stW, Store.get]
    tauto
  exact ⟨(h.2 [3, 1, 2] hl).1, (h.2 [3, 1, 2] hl).2 3⟩

end LetsGo
